import Mathlib

set_option maxHeartbeats 1000000

/-!
Shallow embedding of the ghost daemon's job-supervision core:
the watch-job and server-job state machines of src/cmd/ghost/server_job.go
and the matcher / normalization helpers of src/cmd/ghost/config.go.

Processes are identified by the numeric pid recorded at launch time,
durations are integer milliseconds, and the mutex-guarded sections of the
Go code are modelled as atomic state transitions returning the list of
observable effects (signals, launches, log events) they produce.
-/

/-- Trigger (config.go): one qualifying change event, event kind plus
root-relative path. -/
structure Trigger where
  event : String
  path : String
deriving Repr, DecidableEq

/-- Loop body of dedupeTriggers (server_job.go): the Go seen-map is modelled
as the list of keys inserted so far (only membership is ever queried). -/
def dedupeTriggersAux : List String → List Trigger → List Trigger
  | _, [] => []
  | seen, t :: ts =>
    let key := t.event ++ "|" ++ t.path
    if key ∈ seen then dedupeTriggersAux seen ts
    else t :: dedupeTriggersAux (key :: seen) ts

/-- dedupeTriggers (server_job.go): lists of length at most one are returned
unchanged, otherwise duplicates of the string key event|path are dropped,
keeping the first occurrence of each key in order. -/
def dedupeTriggers (triggers : List Trigger) : List Trigger :=
  if triggers.length ≤ 1 then triggers else dedupeTriggersAux [] triggers

/-- Deduplication by the (event, path) pair, first occurrence of each key
kept in first-seen order; this is the spec's description of the debounce
collapse, to be compared with the string-keyed dedupeTriggers. -/
def pairDedupAux : List (String × String) → List Trigger → List Trigger
  | _, [] => []
  | seen, t :: ts =>
    if (t.event, t.path) ∈ seen then pairDedupAux seen ts
    else t :: pairDedupAux ((t.event, t.path) :: seen) ts

/-- Pair-keyed deduplication with an initially empty seen set. -/
def pairDedup (triggers : List Trigger) : List Trigger :=
  pairDedupAux [] triggers

/-- Debounce-timer firing step of (*watchJob).run: with a non-empty buffer
the buffer is collapsed (handleTriggers, i.e. dedupeTriggers plus an
emptiness check) and handed to the scheduler, and the buffer is cleared.
The first component is the scheduling decision, if any. -/
def debounceFire (buf : List Trigger) : Option (List Trigger) × List Trigger :=
  if buf.isEmpty then (none, buf)
  else
    let collapsed := dedupeTriggers buf
    if collapsed.isEmpty then (none, []) else (some collapsed, [])

/-- Characters escaped by globToRegexp (config.go, the third switch case). -/
def escapedMetaChars : List Char :=
  ['.', '+', '(', ')', '|', '^', '$', '[', ']', '\x7b', '\x7d', '\\']

/-- One element of the regular expression built by globToRegexp: dotStar is
Go regexp .* (a run of non-newline characters), starNoSlash is the class
repetition [^/]*, oneNoSlash is [^/], lit is a literal character, either
backslash-escaped or plain. -/
inductive RegexPiece where
  | dotStar
  | starNoSlash
  | oneNoSlash
  | lit (escaped : Bool) (c : Char)
deriving Repr, DecidableEq

/-- Loop of globToRegexp over the pattern runes: "**" becomes .*, "*"
becomes [^/]*, "?" becomes [^/], metacharacters are escaped, everything
else is emitted verbatim. -/
def compileGlobAux : List Char → List RegexPiece
  | [] => []
  | '*' :: '*' :: rest => .dotStar :: compileGlobAux rest
  | '*' :: rest => .starNoSlash :: compileGlobAux rest
  | '?' :: rest => .oneNoSlash :: compileGlobAux rest
  | c :: rest =>
    (if c ∈ escapedMetaChars then .lit true c else .lit false c) :: compileGlobAux rest

/-- strings.TrimSpace from the Go standard library: drop leading and
trailing whitespace. -/
def goTrimSpace (s : String) : String :=
  ⟨(((s.data.dropWhile Char.isWhitespace).reverse).dropWhile Char.isWhitespace).reverse⟩

/-- globToRegexp (config.go): trim the pattern, reject an empty result, and
compile the rune sequence. The produced expression is wrapped in ^...$, so
together with Go MatchString it performs a whole-string match; that
anchoring is what matchPieces below gives the pieces as semantics. -/
def globToRegexp (pattern : String) : Option (List RegexPiece) :=
  let pattern := goTrimSpace pattern
  if pattern = "" then none else some (compileGlobAux pattern.data)

/-- Repetition loop of a single-character wildcard: greedily or lazily
consume characters other than the banned one until the continuation k
accepts the remaining input. -/
def wildLoop (k : List Char → Bool) (banned : Char) : List Char → Bool
  | [] => k []
  | c :: t => k (c :: t) || (if c = banned then false else wildLoop k banned t)

/-- Semantics of the compiled, fully anchored expression over the characters
of the candidate string. Go regexp default flags: the dot does not match a
newline, while the negated class [^/] matches every character other
than '/'. -/
def matchPieces : List RegexPiece → List Char → Bool
  | [], s => s.isEmpty
  | .dotStar :: ps, s => wildLoop (matchPieces ps) '\n' s
  | .starNoSlash :: ps, s => wildLoop (matchPieces ps) '/' s
  | .oneNoSlash :: ps, s =>
    (match s with
     | [] => false
     | c :: t => if c = '/' then false else matchPieces ps t)
  | .lit _ c :: ps, s =>
    (match s with
     | [] => false
     | d :: t => if d = c then matchPieces ps t else false)

/-- matcher.matches (config.go): MatchString of the compiled anchored
regexp against the candidate path. -/
def matcherMatches (m : List RegexPiece) (value : String) : Bool :=
  matchPieces m value.data

/-- Rendering of a componentwise relative path, exactly as Go filepath.Rel
renders its result for clean inputs: "." when there are no components,
otherwise the components joined by '/'. -/
def joinPath : List String → String
  | [] => "."
  | [a] => a
  | a :: b :: rest => a ++ "/" ++ joinPath (b :: rest)

/-- Length of the longest common componentwise prefix of two paths. -/
def commonPrefixLen : List String → List String → Nat
  | [], _ => 0
  | _ :: _, [] => 0
  | a :: as, b :: bs => if a = b then commonPrefixLen as bs + 1 else 0

/-- filepath.Rel on clean absolute paths, modelled componentwise: strip the
common prefix and prepend one ".." per remaining component of the base. -/
def relPath (root target : List String) : String :=
  let common := commonPrefixLen root target
  joinPath (List.replicate (root.length - common) ".." ++ target.drop common)

/-- strings.HasPrefix from the Go standard library. -/
def goHasPrefix (s pre : String) : Bool :=
  pre.data.isPrefixOf s.data

/-- posixPath (config.go) replaces the platform path separator by '/'; the
separator is '/' on the platforms this daemon targets, so the replacement
is the identity on the rendered relative path. -/
def posixPath (s : String) : String := s

/-- The fields of NormalizedWatcher (config.go) that the supervision core
reads; matchers are stored in compiled form, the event allow-set as a
list with membership queries, and the watch root componentwise. -/
structure NormalizedWatcher where
  watchRoot : List String
  matchers : List (List RegexPiece)
  events : List String
  restart : Bool
  runOnStart : Bool
deriving Repr, DecidableEq

/-- NormalizedWatcher.allowsEvent (config.go): membership in the allow-set. -/
def NormalizedWatcher.allowsEvent (w : NormalizedWatcher) (event : String) : Bool :=
  w.events.contains event

/-- NormalizedWatcher.matches (config.go): an empty matcher list matches
every path, otherwise some matcher must accept it. -/
def NormalizedWatcher.matches (w : NormalizedWatcher) (path : String) : Bool :=
  if w.matchers.isEmpty then true
  else w.matchers.any fun m => matcherMatches m path

/-- A raw filesystem notification, as the four platform-independent event
bits of the notify package. -/
structure NotifyEvent where
  create : Bool
  write : Bool
  remove : Bool
  rename : Bool
deriving Repr, DecidableEq

/-- mapNotifyEvents (server_job.go): create maps to add and addDir, write to
change, remove to unlink and unlinkDir, rename to rename and renameDir. -/
def mapNotifyEvents (e : NotifyEvent) : List String :=
  (if e.create then ["add", "addDir"] else []) ++
  (if e.write then ["change"] else []) ++
  (if e.remove then ["unlink", "unlinkDir"] else []) ++
  (if e.rename then ["rename", "renameDir"] else [])

/-- (*watchJob).triggersForEvent: map the raw event kinds, drop the
notification when its path is empty or its root-relative path begins with
"..", normalize to forward slashes, apply the matchers, and keep one
Trigger per allowed kind. -/
def triggersForEvent (cfg : NormalizedWatcher) (e : NotifyEvent) (path : List String) :
    List Trigger :=
  let events := mapNotifyEvents e
  if events.isEmpty then []
  else if path.isEmpty then []
  else
    let rel0 := relPath cfg.watchRoot path
    if goHasPrefix rel0 ".." then []
    else
      let rel := posixPath rel0
      if ¬ cfg.matches rel then []
      else (events.filter fun ev => cfg.allowsEvent ev).map fun ev => ⟨ev, rel⟩

/-- compileMatchers plus continueIfEmpty (config.go): with no configured
patterns a single-file watcher defaults to the file's basename; patterns
are trimmed, empties dropped, and each survivor compiled. -/
def compileMatchers (patterns : List String) (singleFile : String) : List (List RegexPiece) :=
  let patterns := if patterns.isEmpty ∧ singleFile ≠ "" then [singleFile] else patterns
  ((patterns.map goTrimSpace).filter fun p => p ≠ "").map fun p => compileGlobAux p.data

/-- Event-arrival step of (*watchJob).run: qualifying triggers are appended
to the pending buffer and the debounce timer is (re)armed; a notification
producing no trigger leaves the buffer alone and arms nothing. The Bool
records whether the timer was (re)armed by this step. -/
def eventArrive (cfg : NormalizedWatcher) (e : NotifyEvent) (path : List String)
    (buf : List Trigger) : List Trigger × Bool :=
  let triggers := triggersForEvent cfg e path
  if triggers.isEmpty then (buf, false) else (buf ++ triggers, true)

/-- Mutable state of a watch job (the mutex-guarded fields of watchJob in
server_job.go). The kill timer is modelled by the pid captured when it was
armed; nextPid generates fresh process identities. -/
structure WatchState where
  closed : Bool
  running : Bool
  restartQueued : Bool
  cmd : Option Nat
  killTimer : Option Nat
  pending : List Trigger
  pendingRestart : List Trigger
  nextPid : Nat
deriving Repr, DecidableEq

/-- Observable effects of one locked section of the watch or server job:
a scheduling decision, a graceful-termination signal, the coalesced-restart
log line, the queued-run log line, a successful launch, a failed launch,
or a forced kill. -/
inductive WEffect where
  | sched (ts : List Trigger)
  | sigterm (pid : Nat)
  | coalesced (ts : List Trigger)
  | queuedRun (ts : List Trigger)
  | start (pid : Nat) (ts : List Trigger)
  | startFailed (ts : List Trigger)
  | kill (pid : Nat)
deriving Repr, DecidableEq

/-- Scheduling decisions contained in an effect list. -/
def schedsOf (es : List WEffect) : List (List Trigger) :=
  es.filterMap fun e => match e with | .sched ts => some ts | _ => none

/-- Trigger lists of the successful launches contained in an effect list. -/
def startsOf (es : List WEffect) : List (List Trigger) :=
  es.filterMap fun e => match e with | .start _ ts => some ts | _ => none

/-- Pids of the graceful-termination signals contained in an effect list. -/
def sigtermsOf (es : List WEffect) : List Nat :=
  es.filterMap fun e => match e with | .sigterm p => some p | _ => none

/-- Pids of the forced kills contained in an effect list. -/
def killsOf (es : List WEffect) : List Nat :=
  es.filterMap fun e => match e with | .kill p => some p | _ => none

/-- (*watchJob).stopProcessLocked: nothing happens without a live handle;
otherwise the process is signalled and the forced-kill timer armed with
the captured handle. -/
def stopProcessLocked (s : WatchState) : WatchState × List WEffect :=
  match s.cmd with
  | none => (s, [])
  | some p => ({ s with killTimer := some p }, [.sigterm p])

/-- (*watchJob).launchLocked: an empty trigger list becomes the synthetic
manual trigger; a failed spawn is only logged; a successful spawn records
the handle and marks the job running. The ok flag is the spawn outcome of
the external exec collaborator. -/
def launchLocked (ok : Bool) (triggers : List Trigger) (s : WatchState) :
    WatchState × List WEffect :=
  let triggers := if triggers.isEmpty then [⟨"manual", ""⟩] else triggers
  if ok then
    ({ s with running := true, cmd := some s.nextPid, nextPid := s.nextPid + 1 },
     [.start s.nextPid triggers])
  else (s, [.startFailed triggers])

/-- (*watchJob).scheduleTriggers. The sched effect records the scheduling
decision delivered to this function. In restart mode the triggers always
join the restart queue; with a running process the first request signals
it and later ones only coalesce; when idle the queue is drained into a
launch. In non-restart mode a running process makes the triggers queue for
the next invocation, and an idle job launches immediately. -/
def scheduleTriggers (cfg : NormalizedWatcher) (ok : Bool) (triggers : List Trigger)
    (s : WatchState) : WatchState × List WEffect :=
  let ts := if triggers.isEmpty then [⟨"manual", ""⟩] else triggers
  if s.closed then (s, [.sched ts])
  else if cfg.restart then
    let s1 := { s with pendingRestart := s.pendingRestart ++ ts }
    if s1.running then
      if ¬ s1.restartQueued then
        let s2 := { s1 with restartQueued := true }
        let r := stopProcessLocked s2
        (r.1, .sched ts :: r.2)
      else (s1, [.sched ts, .coalesced ts])
    else
      let q := s1.pendingRestart
      let r := launchLocked ok q { s1 with pendingRestart := [] }
      (r.1, .sched ts :: r.2)
  else if s.running then
    ({ s with pending := s.pending ++ ts }, [.sched ts, .queuedRun ts])
  else
    let r := launchLocked ok triggers s
    (r.1, .sched ts :: r.2)

/-- (*watchJob).waitForExit for the process p: stop the kill timer, clear
the handle if it is still p, capture and reset the queues and flags, then
reschedule — in restart mode from the restart queue, or synthetically when
a restart was requested or run-on-start is set; otherwise from the run
queue. The ok flag is the spawn outcome of the relaunch, if one happens. -/
def waitForExit (cfg : NormalizedWatcher) (ok : Bool) (p : Nat) (s : WatchState) :
    WatchState × List WEffect :=
  let s1 : WatchState :=
    { s with killTimer := none,
             cmd := if s.cmd = some p then none else s.cmd,
             running := false,
             pending := [], pendingRestart := [], restartQueued := false }
  if s.closed then (s1, [])
  else if cfg.restart then
    let triggers :=
      if ¬ s.pendingRestart.isEmpty then s.pendingRestart
      else if s.restartQueued || cfg.runOnStart then [⟨"restart", ""⟩] else []
    if ¬ triggers.isEmpty then scheduleTriggers cfg ok triggers s1 else (s1, [])
  else if ¬ s.pending.isEmpty then scheduleTriggers cfg ok s.pending s1 else (s1, [])

/-- (*watchJob).Close, first caller: set closed, discard both queues and the
restart request, and run the termination step. A second caller finds the
flag set and does nothing. -/
def closeWatch (s : WatchState) : WatchState × List WEffect :=
  if s.closed then (s, [])
  else
    stopProcessLocked
      { s with closed := true, pending := [], pendingRestart := [], restartQueued := false }

/-- Callback of the forced-kill timer armed by (*watchJob).stopProcessLocked
with captured handle c: under the lock it re-validates that the stored
process is still the captured one and kills only then. -/
def killTimerFire (captured : Nat) (s : WatchState) : WatchState × List WEffect :=
  match s.cmd with
  | none => (s, [])
  | some p => if p = captured then (s, [.kill p]) else (s, [])

/-- One externally triggered locked transition of a watch job: a deliverable
of the debounce layer (burst), the exit of the current process, Close, or
a forced-kill timer firing with some captured handle. The ok flags are the
spawn outcomes of any launch the transition performs. -/
inductive WOp where
  | burst (ok : Bool) (ts : List Trigger)
  | procExit (ok : Bool)
  | close
  | killFire (captured : Nat)

/-- Interpretation of one watch-job transition. -/
def applyOp (cfg : NormalizedWatcher) (s : WatchState) : WOp → WatchState × List WEffect
  | .burst ok ts => scheduleTriggers cfg ok ts s
  | .procExit ok =>
    match s.cmd with
    | some p => waitForExit cfg ok p s
    | none => (s, [])
  | .close => closeWatch s
  | .killFire c => killTimerFire c s

/-- State of a freshly constructed watch job. -/
def initWatch : WatchState :=
  { closed := false, running := false, restartQueued := false, cmd := none,
    killTimer := none, pending := [], pendingRestart := [], nextPid := 1 }

/-- Sequential interpretation of a list of watch-job transitions,
accumulating the produced effects. -/
def runOps (cfg : NormalizedWatcher) : WatchState → List WOp → WatchState × List WEffect
  | s, [] => (s, [])
  | s, op :: ops =>
    let r := applyOp cfg s op
    let r2 := runOps cfg r.1 ops
    (r2.1, r.2 ++ r2.2)

/-- Invariant of the watch-job state: the running flag tracks the presence
of a process handle, an idle job has empty queues (so no queued triggers
can exist at the moment any launch is attempted), and a closed job has
discarded its queues and restart request. -/
def WatchInv (s : WatchState) : Prop :=
  s.running = s.cmd.isSome ∧
  (s.running = false → s.pending = [] ∧ s.pendingRestart = []) ∧
  (s.closed = true → s.pending = [] ∧ s.pendingRestart = [] ∧ s.restartQueued = false)

/-- Mutable state of a server job (the mutex-guarded fields of serverJob in
server_job.go); pty records whether a pseudo-terminal handle is held. -/
structure ServerState where
  closed : Bool
  cmd : Option Nat
  pty : Bool
  killTimer : Option Nat
deriving Repr, DecidableEq

/-- (*serverJob).setProcess. -/
def serverSetProcess (p : Nat) (usePty : Bool) (s : ServerState) : ServerState :=
  { s with cmd := some p, pty := usePty }

/-- (*serverJob).clearProcess: stop the kill timer and drop the handles. -/
def serverClearProcess (s : ServerState) : ServerState :=
  { s with cmd := none, pty := false, killTimer := none }

/-- (*serverJob).stopProcessLocked: close the pty if any; without a live
handle nothing else happens, otherwise signal the process and arm the
forced-kill timer with the captured handle. -/
def serverStopProcessLocked (s : ServerState) : ServerState × List WEffect :=
  match s.cmd with
  | none => ({ s with pty := false }, [])
  | some p => ({ s with pty := false, killTimer := some p }, [.sigterm p])

/-- (*serverJob).Close, first caller: set closed and run the termination
step; a second caller finds the flag set and only waits. -/
def serverClose (s : ServerState) : ServerState × List WEffect :=
  if s.closed then (s, [])
  else serverStopProcessLocked { s with closed := true }

/-- Callback of the forced-kill timer armed by (*serverJob).stopProcessLocked
with captured handle c: kills only if the stored process is still c. -/
def serverKillTimerFire (captured : Nat) (s : ServerState) : ServerState × List WEffect :=
  match s.cmd with
  | none => (s, [])
  | some p => if p = captured then (s, [.kill p]) else (s, [])

/-- defaultRestartDelay (config.go), in milliseconds. -/
def defaultRestartDelayMs : Int := 200

/-- Delay armed by (*serverJob).waitForRestart: the configured restart delay,
or the default when the configuration holds a non-positive value. -/
def effectiveRestartDelay (restartDelayMs : Int) : Int :=
  if restartDelayMs ≤ 0 then defaultRestartDelayMs else restartDelayMs

/-- Environment of one iteration of (*serverJob).run, as observed at its
suspension points: whether the job was already closed when launchOnce
started, whether it was closed when the process exit was handled, whether
the stop signal arrived before the restart timer fired, and whether the
job was closed when the timer fired. -/
structure ServerIterEnv where
  closedAtLaunch : Bool
  closedAtExit : Bool
  stopBeforeTimer : Bool
  closedAtTimer : Bool
deriving Repr, DecidableEq

/-- (*serverJob).waitForRestart: false when the stop signal wins the select,
otherwise the timer fired after the full delay and the closed flag is
re-checked. -/
def serverWaitForRestart (env : ServerIterEnv) : Bool :=
  if env.stopBeforeTimer then false else !env.closedAtTimer

/-- Number of launch attempts performed by (*serverJob).run across the given
iteration environments: launchOnce spawns unless the job is already
closed; the loop ends when the job is closed at exit or restart is off,
and otherwise continues exactly when waitForRestart allows it. -/
def serverRunLaunches (restart : Bool) : List ServerIterEnv → Nat
  | [] => 0
  | env :: rest =>
    let attempts := if env.closedAtLaunch then 0 else 1
    if env.closedAtExit || !restart then attempts
    else if serverWaitForRestart env then attempts + serverRunLaunches restart rest
    else attempts

/-! Helper lemmas shared by several claims. -/

theorem append_bar_eq {l1 r1 l2 r2 : List Char} (h1 : '|' ∉ l1) (h2 : '|' ∉ l2)
    (h : l1 ++ '|' :: r1 = l2 ++ '|' :: r2) : l1 = l2 ∧ r1 = r2 := by
  induction l1 generalizing l2 with
  | nil =>
    cases l2 with
    | nil => simpa using h
    | cons b bs =>
      simp only [List.nil_append, List.cons_append, List.cons.injEq] at h
      simp only [List.mem_cons, not_or] at h2
      exact absurd h.1 h2.1
  | cons a as ih =>
    cases l2 with
    | nil =>
      simp only [List.nil_append, List.cons_append, List.cons.injEq] at h
      simp only [List.mem_cons, not_or] at h1
      exact absurd h.1.symm h1.1
    | cons b bs =>
      simp only [List.cons_append, List.cons.injEq] at h
      obtain ⟨rfl, h⟩ := h
      simp only [List.mem_cons, not_or] at h1 h2
      have := ih h1.2 h2.2 h
      exact ⟨by rw [this.1], this.2⟩

theorem triggerKey_inj {e1 p1 e2 p2 : String} (h1 : '|' ∉ e1.data) (h2 : '|' ∉ e2.data)
    (h : e1 ++ "|" ++ p1 = e2 ++ "|" ++ p2) : e1 = e2 ∧ p1 = p2 := by
  have hd : e1.data ++ '|' :: p1.data = e2.data ++ '|' :: p2.data := by
    have h' := congrArg String.data h
    simpa [String.data_append, List.append_assoc] using h'
  obtain ⟨ha, hb⟩ := append_bar_eq h1 h2 hd
  exact ⟨String.ext ha, String.ext hb⟩

theorem mapNotifyEvents_mem {e : NotifyEvent} {ev : String} (h : ev ∈ mapNotifyEvents e) :
    ev = "add" ∨ ev = "addDir" ∨ ev = "change" ∨ ev = "unlink" ∨ ev = "unlinkDir" ∨
      ev = "rename" ∨ ev = "renameDir" := by
  simp only [mapNotifyEvents, List.mem_append] at h
  split_ifs at h <;> simp at h <;> tauto

theorem mapNotifyEvents_no_bar {e : NotifyEvent} {ev : String} (h : ev ∈ mapNotifyEvents e) :
    '|' ∉ ev.data := by
  rcases mapNotifyEvents_mem h with rfl | rfl | rfl | rfl | rfl | rfl | rfl <;> decide

theorem mem_triggersForEvent {cfg : NormalizedWatcher} {e : NotifyEvent}
    {path : List String} {t : Trigger} :
    t ∈ triggersForEvent cfg e path ↔
      path ≠ [] ∧ goHasPrefix (relPath cfg.watchRoot path) ".." = false ∧
      cfg.matches (relPath cfg.watchRoot path) = true ∧
      t.event ∈ mapNotifyEvents e ∧ cfg.allowsEvent t.event = true ∧
      t.path = relPath cfg.watchRoot path := by
  obtain ⟨tev, tpath⟩ := t
  unfold triggersForEvent posixPath
  by_cases h1 : (mapNotifyEvents e).isEmpty
  · rw [if_pos h1]
    rw [List.isEmpty_iff] at h1
    simp [h1]
  · rw [if_neg h1]
    by_cases h2 : path.isEmpty
    · rw [if_pos h2]
      rw [List.isEmpty_iff] at h2
      simp [h2]
    · rw [if_neg h2]
      rw [List.isEmpty_iff] at h2
      by_cases h3 : goHasPrefix (relPath cfg.watchRoot path) ".."
      · simp [h3]
      · rw [if_neg h3]
        by_cases h4 : cfg.matches (relPath cfg.watchRoot path)
        · rw [if_neg (by simp [h4])]
          simp only [List.mem_map, List.mem_filter, Trigger.mk.injEq]
          constructor
          · rintro ⟨ev, ⟨hev, hallow⟩, rfl, rfl⟩
            exact ⟨h2, by simpa using h3, h4, hev, hallow, rfl⟩
          · rintro ⟨_, _, _, hev, hallow, rfl⟩
            exact ⟨tev, ⟨hev, hallow⟩, rfl, rfl⟩
        · rw [if_pos (by simp [h4])]
          simp only [List.not_mem_nil, false_iff]
          rintro ⟨-, -, hm, -⟩
          exact h4 hm

theorem triggersForEvent_event_no_bar {cfg : NormalizedWatcher} {e : NotifyEvent}
    {path : List String} {t : Trigger} (h : t ∈ triggersForEvent cfg e path) :
    '|' ∉ t.event.data :=
  mapNotifyEvents_no_bar (mem_triggersForEvent.mp h).2.2.2.1

theorem dedupeAux_eq_pairAux (ts : List Trigger) :
    ∀ (seen : List String) (seenP : List (String × String)),
      (∀ t ∈ ts, '|' ∉ t.event.data) →
      (∀ e p, '|' ∉ e.data → ((e ++ "|" ++ p) ∈ seen ↔ (e, p) ∈ seenP)) →
      dedupeTriggersAux seen ts = pairDedupAux seenP ts := by
  induction ts with
  | nil => intro seen seenP _ _; rfl
  | cons t ts ih =>
    intro seen seenP hfree hrel
    have ht : '|' ∉ t.event.data := hfree t (by simp)
    have hfree' : ∀ u ∈ ts, '|' ∉ u.event.data := fun u hu => hfree u (by simp [hu])
    by_cases hmem : (t.event, t.path) ∈ seenP
    · have hk : (t.event ++ "|" ++ t.path) ∈ seen := (hrel _ _ ht).mpr hmem
      simp only [dedupeTriggersAux, pairDedupAux, if_pos hk, if_pos hmem]
      exact ih seen seenP hfree' hrel
    · have hk : (t.event ++ "|" ++ t.path) ∉ seen := fun hx => hmem ((hrel _ _ ht).mp hx)
      simp only [dedupeTriggersAux, pairDedupAux, if_neg hk, if_neg hmem]
      refine congrArg (t :: ·) (ih _ _ hfree' ?_)
      intro e p hfe
      simp only [List.mem_cons]
      constructor
      · rintro (hx | hx)
        · obtain ⟨he, hp⟩ := triggerKey_inj hfe ht hx
          exact Or.inl (by rw [he, hp])
        · exact Or.inr ((hrel e p hfe).mp hx)
      · rintro (hx | hx)
        · obtain ⟨he, hp⟩ := Prod.mk.injEq .. ▸ hx
          exact Or.inl (by rw [he, hp])
        · exact Or.inr ((hrel e p hfe).mpr hx)

theorem dedupeTriggers_eq_pairDedup (ts : List Trigger)
    (hfree : ∀ t ∈ ts, '|' ∉ t.event.data) : dedupeTriggers ts = pairDedup ts := by
  unfold dedupeTriggers pairDedup
  by_cases h : ts.length ≤ 1
  · rw [if_pos h]
    cases ts with
    | nil => rfl
    | cons t ts =>
      cases ts with
      | nil => simp [pairDedupAux]
      | cons u us => simp at h
  · rw [if_neg h]
    exact dedupeAux_eq_pairAux ts [] [] hfree (by simp)

theorem dedupeTriggers_ne_nil {ts : List Trigger} (h : ts ≠ []) : dedupeTriggers ts ≠ [] := by
  unfold dedupeTriggers
  cases ts with
  | nil => exact absurd rfl h
  | cons t ts =>
    split
    · simp
    · simp only [dedupeTriggersAux]
      split
      · simp_all
      · simp

/-- C2: for every sequence of admitted triggers accumulated in one debounce
window, when the debounce timer fires with a non-empty buffer exactly one
scheduling decision is made, whose trigger list is the buffer deduplicated
by the (event, path) key with the first occurrence of each key kept in
first-seen order, and the buffer is empty afterwards. -/
theorem C2_debounce_dedup (cfg : NormalizedWatcher)
    (inputs : List (NotifyEvent × List String))
    (hne : (inputs.flatMap fun i => triggersForEvent cfg i.1 i.2) ≠ []) :
    debounceFire (inputs.flatMap fun i => triggersForEvent cfg i.1 i.2) =
      (some (pairDedup (inputs.flatMap fun i => triggersForEvent cfg i.1 i.2)), []) := by
  have hfree : ∀ t ∈ (inputs.flatMap fun i => triggersForEvent cfg i.1 i.2),
      '|' ∉ t.event.data := by
    intro t ht
    obtain ⟨i, _, hi⟩ := List.mem_flatMap.mp ht
    exact triggersForEvent_event_no_bar hi
  have hd := dedupeTriggers_eq_pairDedup _ hfree
  have hdn := dedupeTriggers_ne_nil hne
  rw [hd] at hdn
  unfold debounceFire
  rw [if_neg (by simpa [List.isEmpty_iff] using hne), hd,
    if_neg (by simpa [List.isEmpty_iff] using hdn)]

/-- Witness for C2 at a concrete watcher and a single write notification. -/
theorem C2_debounce_dedup_witness :
    debounceFire ([((NotifyEvent.mk false true false false : NotifyEvent), ["r", "a.txt"])].flatMap
        fun i => triggersForEvent ⟨["r"], [], ["change"], false, false⟩ i.1 i.2) =
      (some (pairDedup ([((NotifyEvent.mk false true false false : NotifyEvent), ["r", "a.txt"])].flatMap
        fun i => triggersForEvent ⟨["r"], [], ["change"], false, false⟩ i.1 i.2)), []) :=
  C2_debounce_dedup _ _ (by decide)

/-! Semantic characterization of the compiled glob pieces. -/

theorem matchPieces_nil (s : List Char) : matchPieces [] s = true ↔ s = [] := by
  cases s <;> simp [matchPieces]

theorem wildLoop_iff (k : List Char → Bool) (banned : Char) (s : List Char) :
    wildLoop k banned s = true ↔ ∃ a t, s = a ++ t ∧ banned ∉ a ∧ k t = true := by
  induction s with
  | nil =>
    simp only [wildLoop]
    constructor
    · intro h; exact ⟨[], [], rfl, by simp, h⟩
    · rintro ⟨a, t, h, _, ht⟩
      obtain ⟨rfl, rfl⟩ := List.append_eq_nil.mp h.symm
      exact ht
  | cons c t ih =>
    simp only [wildLoop, Bool.or_eq_true]
    constructor
    · rintro (h | h)
      · exact ⟨[], c :: t, rfl, by simp, h⟩
      · split_ifs at h with hc
        obtain ⟨a, u, rfl, ha, hu⟩ := ih.mp h
        refine ⟨c :: a, u, rfl, ?_, hu⟩
        simp only [List.mem_cons, not_or]
        exact ⟨fun hx => hc hx.symm, ha⟩
    · rintro ⟨a, u, h, ha, hu⟩
      cases a with
      | nil => exact Or.inl (h ▸ hu)
      | cons b a =>
        simp only [List.cons_append, List.cons.injEq] at h
        obtain ⟨rfl, rfl⟩ := h
        simp only [List.mem_cons, not_or] at ha
        refine Or.inr ?_
        rw [if_neg (fun hx => ha.1 hx.symm)]
        exact ih.mpr ⟨a, u, rfl, ha.2, hu⟩

theorem matchPieces_dotStar (ps : List RegexPiece) (s : List Char) :
    matchPieces (RegexPiece.dotStar :: ps) s = true ↔
      ∃ a t, s = a ++ t ∧ '\n' ∉ a ∧ matchPieces ps t = true :=
  wildLoop_iff (matchPieces ps) '\n' s

theorem matchPieces_starNoSlash (ps : List RegexPiece) (s : List Char) :
    matchPieces (RegexPiece.starNoSlash :: ps) s = true ↔
      ∃ a t, s = a ++ t ∧ '/' ∉ a ∧ matchPieces ps t = true :=
  wildLoop_iff (matchPieces ps) '/' s

theorem matchPieces_oneNoSlash (ps : List RegexPiece) (s : List Char) :
    matchPieces (RegexPiece.oneNoSlash :: ps) s = true ↔
      ∃ c t, s = c :: t ∧ c ≠ '/' ∧ matchPieces ps t = true := by
  cases s with
  | nil => simp [matchPieces]
  | cons c t =>
    simp only [matchPieces]
    split_ifs with hc
    · simp only [Bool.false_eq_true, false_iff]
      rintro ⟨d, u, h, hd, -⟩
      simp only [List.cons.injEq] at h
      exact hd (h.1 ▸ hc)
    · constructor
      · intro h; exact ⟨c, t, rfl, hc, h⟩
      · rintro ⟨d, u, h, hd, hu⟩
        simp only [List.cons.injEq] at h
        obtain ⟨rfl, rfl⟩ := h
        exact hu

theorem matchPieces_lit (b : Bool) (c : Char) (ps : List RegexPiece) (s : List Char) :
    matchPieces (RegexPiece.lit b c :: ps) s = true ↔
      ∃ t, s = c :: t ∧ matchPieces ps t = true := by
  cases s with
  | nil => simp [matchPieces]
  | cons d t =>
    simp only [matchPieces]
    split_ifs with hd
    · subst hd
      constructor
      · intro h; exact ⟨t, rfl, h⟩
      · rintro ⟨u, h, hu⟩
        simp only [List.cons.injEq] at h
        obtain ⟨-, rfl⟩ := h
        exact hu
    · simp only [Bool.false_eq_true, false_iff]
      rintro ⟨u, h, -⟩
      simp only [List.cons.injEq] at h
      exact hd h.1

theorem compileGlobAux_lit_escaped :
    ∀ (cs : List Char) (b : Bool) (c : Char), RegexPiece.lit b c ∈ compileGlobAux cs →
      c ∈ escapedMetaChars → b = true := by
  intro cs
  induction cs using compileGlobAux.induct with
  | case1 => intro b c h; simp [compileGlobAux] at h
  | case2 rest ih =>
    intro b c h
    simp only [compileGlobAux, List.mem_cons] at h
    rcases h with h | h
    · cases h
    · exact ih b c h
  | case3 rest hne ih =>
    intro b c h
    rw [compileGlobAux.eq_3 rest hne] at h
    simp only [List.mem_cons] at h
    rcases h with h | h
    · cases h
    · exact ih b c h
  | case4 rest ih =>
    intro b c h
    simp only [compileGlobAux, List.mem_cons] at h
    rcases h with h | h
    · cases h
    · exact ih b c h
  | case5 d rest h1 h2 h3 ih =>
    intro b c h
    rw [compileGlobAux.eq_5 d rest h1 h2 h3] at h
    simp only [List.mem_cons] at h
    rcases h with h | h
    · split_ifs at h with hm
      · cases h; intro _; rfl
      · cases h; intro hc; exact absurd hc hm
    · exact ih b c h

/-- C10 counterexample: the pattern "**" compiles to the Go regexp dot-star,
and the Go regexp dot does not match a newline, so the compiled matcher
rejects the path consisting of 'a', a newline and 'b' even though the
claim states that "**" matches any sequence of characters. -/
theorem C10_counterexample :
    globToRegexp "**" = some [RegexPiece.dotStar] ∧
    matcherMatches [RegexPiece.dotStar] "a\nb" = false := by
  constructor
  · decide
  · decide

/-- C10 amended: matching is anchored over the entire forward-slash relative
path; "**" matches any sequence of non-newline characters (the Go regexp
dot excludes newline), a single "*" matches any sequence not containing
"/", and "?" matches exactly one non-"/" character; every regexp
metacharacter occurring in the pattern is emitted escaped and an escaped
or plain literal matches exactly itself — so "*.txt" matches "a.txt" but
never "sub/a.txt". -/
theorem C10_glob_matching :
    (∀ (ps : List RegexPiece) (s : List Char),
        matchPieces (RegexPiece.dotStar :: ps) s = true ↔
          ∃ a t, s = a ++ t ∧ '\n' ∉ a ∧ matchPieces ps t = true) ∧
    (∀ (ps : List RegexPiece) (s : List Char),
        matchPieces (RegexPiece.starNoSlash :: ps) s = true ↔
          ∃ a t, s = a ++ t ∧ '/' ∉ a ∧ matchPieces ps t = true) ∧
    (∀ (ps : List RegexPiece) (s : List Char),
        matchPieces (RegexPiece.oneNoSlash :: ps) s = true ↔
          ∃ c t, s = c :: t ∧ c ≠ '/' ∧ matchPieces ps t = true) ∧
    (∀ (b : Bool) (c : Char) (ps : List RegexPiece) (s : List Char),
        matchPieces (RegexPiece.lit b c :: ps) s = true ↔
          ∃ t, s = c :: t ∧ matchPieces ps t = true) ∧
    (∀ s : List Char, matchPieces [] s = true ↔ s = []) ∧
    (∀ c ∈ escapedMetaChars, compileGlobAux [c] = [RegexPiece.lit true c]) ∧
    (∀ (cs : List Char) (b : Bool) (c : Char),
        RegexPiece.lit b c ∈ compileGlobAux cs → c ∈ escapedMetaChars → b = true) ∧
    matcherMatches (compileGlobAux "*.txt".data) "a.txt" = true ∧
    matcherMatches (compileGlobAux "*.txt".data) "sub/a.txt" = false := by
  refine ⟨matchPieces_dotStar, matchPieces_starNoSlash, matchPieces_oneNoSlash,
    matchPieces_lit, matchPieces_nil, ?_, compileGlobAux_lit_escaped, by decide, by decide⟩
  intro c hc
  fin_cases hc <;> rfl

/-- Witness for the amended C10 at concrete inputs. -/
theorem C10_glob_matching_witness :
    matchPieces [RegexPiece.dotStar] "abc".data = true ∧
    compileGlobAux ['.'] = [RegexPiece.lit true '.'] :=
  ⟨(C10_glob_matching.1 [] "abc".data).mpr ⟨"abc".data, [], by decide, by decide, by decide⟩,
   C10_glob_matching.2.2.2.2.2.1 '.' (by decide)⟩

/-! Path helpers for the event-admission claim. -/

theorem commonPrefixLen_le (root : List String) :
    ∀ path, commonPrefixLen root path ≤ root.length := by
  induction root with
  | nil => intro path; simp [commonPrefixLen]
  | cons a as ih =>
    intro path
    cases path with
    | nil => simp [commonPrefixLen]
    | cons b bs =>
      simp only [commonPrefixLen, List.length_cons]
      split_ifs
      · simpa using ih bs
      · simp

theorem commonPrefixLen_eq_iff (root : List String) :
    ∀ path, commonPrefixLen root path = root.length ↔ root <+: path := by
  induction root with
  | nil => intro path; simp [commonPrefixLen]
  | cons a as ih =>
    intro path
    cases path with
    | nil =>
      simp only [commonPrefixLen, List.length_cons]
      constructor
      · intro h; omega
      · intro h; exact absurd (List.eq_nil_of_prefix_nil h) (by simp)
    | cons b bs =>
      simp only [commonPrefixLen, List.length_cons, List.cons_prefix_cons]
      split_ifs with hab
      · subst hab
        constructor
        · intro h; exact ⟨rfl, (ih bs).mp (by omega)⟩
        · rintro ⟨-, h⟩; rw [(ih bs).mpr h]
      · constructor
        · intro h; exact h.elim
        · rintro ⟨rfl, -⟩; exact absurd rfl hab

theorem goHasPrefix_joinPath_dotdot (l : List String) :
    goHasPrefix (joinPath (".." :: l)) ".." = true := by
  cases l with
  | nil => decide
  | cons b bs =>
    have h : joinPath (".." :: b :: bs) = ".." ++ "/" ++ joinPath (b :: bs) := rfl
    rw [h]
    unfold goHasPrefix
    rw [String.data_append, String.data_append]
    show List.isPrefixOf ['.', '.'] ('.' :: '.' :: ('/' :: (joinPath (b :: bs)).data)) = true
    simp [List.isPrefixOf]

theorem relPath_not_under {root path : List String} (h : ¬ root <+: path) :
    goHasPrefix (relPath root path) ".." = true := by
  have hle := commonPrefixLen_le root path
  have hne : commonPrefixLen root path ≠ root.length :=
    fun he => h ((commonPrefixLen_eq_iff root path).mp he)
  obtain ⟨k, hk⟩ : ∃ k, root.length - commonPrefixLen root path = k + 1 :=
    ⟨root.length - commonPrefixLen root path - 1, by omega⟩
  show goHasPrefix
      (joinPath (List.replicate (root.length - commonPrefixLen root path) ".." ++
        List.drop (commonPrefixLen root path) path)) ".." = true
  rw [hk, List.replicate_succ, List.cons_append]
  exact goHasPrefix_joinPath_dotdot _

/-- C3 counterexample: a write notification for the file "..a.txt" directly
under the watch root resolves under the root, matches the (empty, hence
match-everything) matcher list, and carries the allowed kind "change", yet
triggersForEvent produces no Trigger, because the code drops every
notification whose root-relative path merely begins with the two
characters "..". -/
theorem C3_counterexample :
    (Trigger.mk "change" "..a.txt" ∉
      triggersForEvent ⟨["home", "u", "w"], [], ["change"], false, false⟩
        ⟨false, true, false, false⟩ ["home", "u", "w", "..a.txt"]) ∧
    (["home", "u", "w"] : List String).isPrefixOf ["home", "u", "w", "..a.txt"] = true ∧
    relPath ["home", "u", "w"] ["home", "u", "w", "..a.txt"] = "..a.txt" ∧
    NormalizedWatcher.matches ⟨["home", "u", "w"], [], ["change"], false, false⟩ "..a.txt" = true ∧
    "change" ∈ mapNotifyEvents ⟨false, true, false, false⟩ ∧
    NormalizedWatcher.allowsEvent ⟨["home", "u", "w"], [], ["change"], false, false⟩ "change" = true := by
  refine ⟨?_, by decide, by decide, by decide, by decide, by decide⟩
  decide

/-- C3 amended: a Trigger with kind k and root-relative path r is produced
iff the notification's path is non-empty and resolves under the watch root
with root-relative path r (normalized to forward slashes), r does not begin
with the two characters "..", r matches the configured matchers (an empty
matcher list matches every path), and k is produced by the raw-event
mapping and lies in the allow-set; moreover every produced Trigger carries
the root-relative path, and a single-file job with no configured patterns
defaults to the file's basename as its only pattern. -/
theorem C3_trigger_admission :
    (∀ (cfg : NormalizedWatcher) (e : NotifyEvent) (path : List String) (k : String),
      Trigger.mk k (relPath cfg.watchRoot path) ∈ triggersForEvent cfg e path ↔
        (path ≠ [] ∧ cfg.watchRoot.isPrefixOf path = true ∧
         goHasPrefix (relPath cfg.watchRoot path) ".." = false ∧
         cfg.matches (relPath cfg.watchRoot path) = true ∧
         k ∈ mapNotifyEvents e ∧ cfg.allowsEvent k = true)) ∧
    (∀ (cfg : NormalizedWatcher) (e : NotifyEvent) (path : List String) (t : Trigger),
      t ∈ triggersForEvent cfg e path → t.path = relPath cfg.watchRoot path) ∧
    (∀ (w : NormalizedWatcher) (p : String), w.matchers = [] → w.matches p = true) ∧
    (∀ sf : String, sf ≠ "" → goTrimSpace sf ≠ "" →
      compileMatchers [] sf = [compileGlobAux (goTrimSpace sf).data]) := by
  refine ⟨?_, ?_, ?_, ?_⟩
  · intro cfg e path k
    rw [mem_triggersForEvent]
    constructor
    · rintro ⟨h1, h2, h3, h4, h5, -⟩
      refine ⟨h1, ?_, h2, h3, h4, h5⟩
      rw [List.isPrefixOf_iff_prefix]
      by_contra hnp
      rw [relPath_not_under hnp] at h2
      cases h2
    · rintro ⟨h1, -, h2, h3, h4, h5⟩
      exact ⟨h1, h2, h3, h4, h5, rfl⟩
  · intro cfg e path t ht
    exact (mem_triggersForEvent.mp ht).2.2.2.2.2
  · intro w p hw
    unfold NormalizedWatcher.matches
    rw [hw]
    rfl
  · intro sf h1 h2
    unfold compileMatchers
    rw [if_pos ⟨by simp, h1⟩]
    simp [h2]

/-- Witness for the amended C3 at a concrete watcher and notification. -/
theorem C3_trigger_admission_witness :
    Trigger.mk "change" (relPath ["r"] ["r", "a.txt"]) ∈
      triggersForEvent ⟨["r"], [], ["change"], false, false⟩
        ⟨false, true, false, false⟩ ["r", "a.txt"] :=
  (C3_trigger_admission.1 ⟨["r"], [], ["change"], false, false⟩
      ⟨false, true, false, false⟩ ["r", "a.txt"] "change").mpr
    ⟨by decide, by decide, by decide, by decide, by decide, by decide⟩

/-! Step lemmas for the watch-job scheduler. -/

theorem scheduleTriggers_first_signal {cfg : NormalizedWatcher} {s : WatchState}
    {b : List Trigger} {p : Nat} (ok : Bool) (hr : cfg.restart = true) (hc : s.closed = false)
    (hrun : s.running = true) (hq : s.restartQueued = false) (hcmd : s.cmd = some p)
    (hb : b ≠ []) :
    scheduleTriggers cfg ok b s =
      ({ s with pendingRestart := s.pendingRestart ++ b, restartQueued := true,
                killTimer := some p },
       [.sched b, .sigterm p]) := by
  have hbe : b.isEmpty = false := by simpa [List.isEmpty_iff] using hb
  simp [scheduleTriggers, stopProcessLocked, hbe, hc, hr, hrun, hq, hcmd]

theorem scheduleTriggers_coalesce {cfg : NormalizedWatcher} {s : WatchState}
    {b : List Trigger} (ok : Bool) (hr : cfg.restart = true) (hc : s.closed = false)
    (hrun : s.running = true) (hq : s.restartQueued = true) (hb : b ≠ []) :
    scheduleTriggers cfg ok b s =
      ({ s with pendingRestart := s.pendingRestart ++ b }, [.sched b, .coalesced b]) := by
  have hbe : b.isEmpty = false := by simpa [List.isEmpty_iff] using hb
  simp [scheduleTriggers, hbe, hc, hr, hrun, hq]

theorem scheduleTriggers_queue {cfg : NormalizedWatcher} {s : WatchState}
    {b : List Trigger} (ok : Bool) (hr : cfg.restart = false) (hc : s.closed = false)
    (hrun : s.running = true) (hb : b ≠ []) :
    scheduleTriggers cfg ok b s =
      ({ s with pending := s.pending ++ b }, [.sched b, .queuedRun b]) := by
  have hbe : b.isEmpty = false := by simpa [List.isEmpty_iff] using hb
  simp [scheduleTriggers, hbe, hc, hr, hrun]

theorem scheduleTriggers_idle_restart {cfg : NormalizedWatcher} {s : WatchState}
    {b : List Trigger} (ok : Bool) (hr : cfg.restart = true) (hc : s.closed = false)
    (hrun : s.running = false) (hb : b ≠ []) :
    scheduleTriggers cfg ok b s =
      (if ok then
        ({ s with pendingRestart := [], running := true, cmd := some s.nextPid,
                  nextPid := s.nextPid + 1 },
         [.sched b, .start s.nextPid (s.pendingRestart ++ b)])
       else
        ({ s with pendingRestart := [] }, [.sched b, .startFailed (s.pendingRestart ++ b)])) := by
  have hbe : b.isEmpty = false := by simpa [List.isEmpty_iff] using hb
  have hqe : (s.pendingRestart ++ b).isEmpty = false := by
    simp [List.isEmpty_iff, hb]
  cases ok <;> simp [scheduleTriggers, launchLocked, hbe, hqe, hc, hr, hrun]

theorem scheduleTriggers_idle_norestart {cfg : NormalizedWatcher} {s : WatchState}
    {b : List Trigger} (ok : Bool) (hr : cfg.restart = false) (hc : s.closed = false)
    (hrun : s.running = false) (hb : b ≠ []) :
    scheduleTriggers cfg ok b s =
      (if ok then
        ({ s with running := true, cmd := some s.nextPid, nextPid := s.nextPid + 1 },
         [.sched b, .start s.nextPid b])
       else (s, [.sched b, .startFailed b])) := by
  have hbe : b.isEmpty = false := by simpa [List.isEmpty_iff] using hb
  cases ok <;> simp [scheduleTriggers, launchLocked, hbe, hc, hr, hrun]

theorem waitForExit_closed {cfg : NormalizedWatcher} {s : WatchState} {p : Nat} (ok : Bool)
    (hc : s.closed = true) :
    waitForExit cfg ok p s =
      ({ s with killTimer := none, cmd := if s.cmd = some p then none else s.cmd,
                running := false, pending := [], pendingRestart := [],
                restartQueued := false }, []) := by
  simp [waitForExit, hc]

theorem waitForExit_restart_nonempty {cfg : NormalizedWatcher} {s : WatchState} {p : Nat}
    (ok : Bool) (hr : cfg.restart = true) (hc : s.closed = false)
    (hpr : s.pendingRestart ≠ []) :
    waitForExit cfg ok p s =
      scheduleTriggers cfg ok s.pendingRestart
        { s with killTimer := none, cmd := if s.cmd = some p then none else s.cmd,
                 running := false, pending := [], pendingRestart := [],
                 restartQueued := false } := by
  have hbe : s.pendingRestart.isEmpty = false := by simpa [List.isEmpty_iff] using hpr
  simp [waitForExit, hc, hr, hbe]

theorem waitForExit_restart_synthetic {cfg : NormalizedWatcher} {s : WatchState} {p : Nat}
    (ok : Bool) (hr : cfg.restart = true) (hc : s.closed = false)
    (hpr : s.pendingRestart = []) (hrq : s.restartQueued = true ∨ cfg.runOnStart = true) :
    waitForExit cfg ok p s =
      scheduleTriggers cfg ok [⟨"restart", ""⟩]
        { s with killTimer := none, cmd := if s.cmd = some p then none else s.cmd,
                 running := false, pending := [], pendingRestart := [],
                 restartQueued := false } := by
  rcases hrq with h | h <;> simp [waitForExit, hc, hr, hpr, h]

theorem waitForExit_restart_none {cfg : NormalizedWatcher} {s : WatchState} {p : Nat}
    (ok : Bool) (hr : cfg.restart = true) (hc : s.closed = false)
    (hpr : s.pendingRestart = []) (hrq : s.restartQueued = false)
    (hro : cfg.runOnStart = false) :
    waitForExit cfg ok p s =
      ({ s with killTimer := none, cmd := if s.cmd = some p then none else s.cmd,
                running := false, pending := [], pendingRestart := [],
                restartQueued := false }, []) := by
  simp [waitForExit, hc, hr, hpr, hrq, hro]

theorem waitForExit_norestart_nonempty {cfg : NormalizedWatcher} {s : WatchState} {p : Nat}
    (ok : Bool) (hr : cfg.restart = false) (hc : s.closed = false)
    (hp : s.pending ≠ []) :
    waitForExit cfg ok p s =
      scheduleTriggers cfg ok s.pending
        { s with killTimer := none, cmd := if s.cmd = some p then none else s.cmd,
                 running := false, pending := [], pendingRestart := [],
                 restartQueued := false } := by
  have hbe : s.pending.isEmpty = false := by simpa [List.isEmpty_iff] using hp
  simp [waitForExit, hc, hr, hbe]

theorem waitForExit_norestart_empty {cfg : NormalizedWatcher} {s : WatchState} {p : Nat}
    (ok : Bool) (hr : cfg.restart = false) (hc : s.closed = false)
    (hp : s.pending = []) :
    waitForExit cfg ok p s =
      ({ s with killTimer := none, cmd := if s.cmd = some p then none else s.cmd,
                running := false, pending := [], pendingRestart := [],
                restartQueued := false }, []) := by
  simp [waitForExit, hc, hr, hp]

theorem runOps_cons (cfg : NormalizedWatcher) (s : WatchState) (op : WOp) (ops : List WOp) :
    runOps cfg s (op :: ops) =
      ((runOps cfg (applyOp cfg s op).1 ops).1,
       (applyOp cfg s op).2 ++ (runOps cfg (applyOp cfg s op).1 ops).2) := rfl

theorem sigtermsOf_coalesceRun (bs : List (List Trigger)) :
    sigtermsOf (bs.flatMap fun b => [WEffect.sched b, WEffect.coalesced b]) = [] := by
  induction bs with
  | nil => rfl
  | cons b bs ih => simpa [sigtermsOf, List.filterMap_append] using ih

theorem startsOf_coalesceRun (bs : List (List Trigger)) :
    startsOf (bs.flatMap fun b => [WEffect.sched b, WEffect.coalesced b]) = [] := by
  induction bs with
  | nil => rfl
  | cons b bs ih => simpa [startsOf, List.filterMap_append] using ih

theorem runOps_coalesce_all (cfg : NormalizedWatcher) (hr : cfg.restart = true)
    (bs : List (List Trigger)) :
    ∀ s : WatchState, s.closed = false → s.running = true → s.restartQueued = true →
      (∀ b ∈ bs, b ≠ []) →
      runOps cfg s (bs.map fun b => WOp.burst true b) =
        ({ s with pendingRestart := s.pendingRestart ++ bs.flatten },
         bs.flatMap fun b => [WEffect.sched b, WEffect.coalesced b]) := by
  induction bs with
  | nil =>
    intro s hc hrun hq _
    simp [runOps]
  | cons b bs ih =>
    intro s hc hrun hq hne
    rw [List.map_cons, runOps_cons]
    have hstep : applyOp cfg s (WOp.burst true b) =
        ({ s with pendingRestart := s.pendingRestart ++ b }, [.sched b, .coalesced b]) :=
      scheduleTriggers_coalesce true hr hc hrun hq (hne b (by simp))
    rw [hstep]
    have hrec := ih { s with pendingRestart := s.pendingRestart ++ b }
      hc hrun hq (fun x hx => hne x (by simp [hx]))
    rw [hrec]
    simp [List.append_assoc]

theorem sigtermsOf_append (a b : List WEffect) :
    sigtermsOf (a ++ b) = sigtermsOf a ++ sigtermsOf b :=
  List.filterMap_append a b _

theorem startsOf_append (a b : List WEffect) :
    startsOf (a ++ b) = startsOf a ++ startsOf b :=
  List.filterMap_append a b _

theorem schedsOf_append (a b : List WEffect) :
    schedsOf (a ++ b) = schedsOf a ++ schedsOf b :=
  List.filterMap_append a b _

/-- C1: for a watch job in restart mode with a process currently running,
any number of trigger bursts delivered to the scheduler before that
process exits cause exactly one graceful-termination signal, sent to the
running process by the first burst, which also sets the restart-requested
flag; every later burst only appends to the restart queue (producing the
coalesced log line and no further signal); and when the process then
exits, the single relaunch starts with the concatenation of all bursts in
arrival order — whose trigger set is the union of the bursts — and sends
no further signal. -/
theorem C1_restart_bursts (cfg : NormalizedWatcher) (p n : Nat) (kt : Option Nat)
    (pend : List Trigger) (b : List Trigger) (bs : List (List Trigger))
    (hr : cfg.restart = true) (hb : b ≠ []) (hbs : ∀ x ∈ bs, x ≠ []) :
    runOps cfg ⟨false, true, false, some p, kt, pend, [], n⟩
        ((b :: bs).map fun x => WOp.burst true x) =
      (⟨false, true, true, some p, some p, pend, (b :: bs).flatten, n⟩,
       .sched b :: .sigterm p :: (bs.flatMap fun x => [.sched x, .coalesced x])) ∧
    sigtermsOf
        (.sched b :: .sigterm p :: (bs.flatMap fun x => [.sched x, .coalesced x])) = [p] ∧
    startsOf
        (.sched b :: .sigterm p :: (bs.flatMap fun x => [.sched x, .coalesced x])) = [] ∧
    waitForExit cfg true p ⟨false, true, true, some p, some p, pend, (b :: bs).flatten, n⟩ =
      (⟨false, true, false, some n, none, [], [], n + 1⟩,
       [.sched ((b :: bs).flatten), .start n ((b :: bs).flatten)]) ∧
    startsOf [WEffect.sched ((b :: bs).flatten), WEffect.start n ((b :: bs).flatten)] =
      [(b :: bs).flatten] ∧
    sigtermsOf [WEffect.sched ((b :: bs).flatten), WEffect.start n ((b :: bs).flatten)] = [] := by
  have hne2 : (b :: bs).flatten ≠ [] := by
    rw [List.flatten_cons]
    exact List.append_ne_nil_of_left_ne_nil hb _
  have h1 : scheduleTriggers cfg true b (⟨false, true, false, some p, kt, pend, [], n⟩ : WatchState) =
      (⟨false, true, true, some p, some p, pend, b, n⟩, [.sched b, .sigterm p]) := by
    rw [scheduleTriggers_first_signal true hr rfl rfl rfl rfl hb]
    simp
  have h2 : runOps cfg (⟨false, true, true, some p, some p, pend, b, n⟩ : WatchState)
        (bs.map fun x => WOp.burst true x) =
      (⟨false, true, true, some p, some p, pend, b ++ bs.flatten, n⟩,
       bs.flatMap fun x => [.sched x, .coalesced x]) := by
    rw [runOps_coalesce_all cfg hr bs _ rfl rfl rfl hbs]
  refine ⟨?_, ?_, ?_, ?_, ?_, ?_⟩
  · rw [List.map_cons, runOps_cons,
      show applyOp cfg (⟨false, true, false, some p, kt, pend, [], n⟩ : WatchState)
          (WOp.burst true b) =
        (⟨false, true, true, some p, some p, pend, b, n⟩, [.sched b, .sigterm p]) from h1,
      h2]
    simp
  · show sigtermsOf ([.sched b, .sigterm p] ++ (bs.flatMap fun x => [.sched x, .coalesced x])) = [p]
    rw [sigtermsOf_append, sigtermsOf_coalesceRun]
    rfl
  · show startsOf ([.sched b, .sigterm p] ++ (bs.flatMap fun x => [.sched x, .coalesced x])) = []
    rw [startsOf_append, startsOf_coalesceRun]
    rfl
  · rw [waitForExit_restart_nonempty true hr rfl hne2]
    rw [scheduleTriggers_idle_restart true hr rfl rfl hne2]
    simp
  · simp [startsOf]
  · simp [sigtermsOf]

/-- Witness for C1 at two concrete one-trigger bursts. -/
theorem C1_restart_bursts_witness :
    runOps ⟨[], [], ["change"], true, false⟩ ⟨false, true, false, some 7, none, [], [], 9⟩
        (([[⟨"change", "a"⟩], [⟨"change", "b"⟩]]).map fun x => WOp.burst true x) =
      (⟨false, true, true, some 7, some 7, [], [⟨"change", "a"⟩, ⟨"change", "b"⟩], 9⟩,
       [.sched [⟨"change", "a"⟩], .sigterm 7, .sched [⟨"change", "b"⟩],
        .coalesced [⟨"change", "b"⟩]]) :=
  (C1_restart_bursts ⟨[], [], ["change"], true, false⟩ 7 9 none [] [⟨"change", "a"⟩]
      [[⟨"change", "b"⟩]] rfl (by decide) (by decide)).1

theorem sigtermsOf_queueRun (bs : List (List Trigger)) :
    sigtermsOf (bs.flatMap fun b => [WEffect.sched b, WEffect.queuedRun b]) = [] := by
  induction bs with
  | nil => rfl
  | cons b bs ih => simpa [sigtermsOf, List.filterMap_append] using ih

theorem killsOf_queueRun (bs : List (List Trigger)) :
    killsOf (bs.flatMap fun b => [WEffect.sched b, WEffect.queuedRun b]) = [] := by
  induction bs with
  | nil => rfl
  | cons b bs ih => simpa [killsOf, List.filterMap_append] using ih

theorem startsOf_queueRun (bs : List (List Trigger)) :
    startsOf (bs.flatMap fun b => [WEffect.sched b, WEffect.queuedRun b]) = [] := by
  induction bs with
  | nil => rfl
  | cons b bs ih => simpa [startsOf, List.filterMap_append] using ih

theorem runOps_queue_all (cfg : NormalizedWatcher) (hr : cfg.restart = false)
    (bs : List (List Trigger)) :
    ∀ s : WatchState, s.closed = false → s.running = true → (∀ b ∈ bs, b ≠ []) →
      runOps cfg s (bs.map fun b => WOp.burst true b) =
        ({ s with pending := s.pending ++ bs.flatten },
         bs.flatMap fun b => [WEffect.sched b, WEffect.queuedRun b]) := by
  induction bs with
  | nil =>
    intro s hc hrun _
    simp [runOps]
  | cons b bs ih =>
    intro s hc hrun hne
    rw [List.map_cons, runOps_cons]
    have hstep : applyOp cfg s (WOp.burst true b) =
        ({ s with pending := s.pending ++ b }, [.sched b, .queuedRun b]) :=
      scheduleTriggers_queue true hr hc hrun (hne b (by simp))
    rw [hstep]
    have hrec := ih { s with pending := s.pending ++ b }
      hc hrun (fun x hx => hne x (by simp [hx]))
    rw [hrec]
    simp [List.append_assoc]

/-- C4: for a watch job in non-restart mode, trigger bursts arriving while a
process is running never signal or kill that process and start nothing;
each burst's triggers are appended to the run queue; and after the current
process exits with the job not closed, the non-empty run queue starts
exactly one new run carrying exactly the queued triggers. -/
theorem C4_norestart_queue (cfg : NormalizedWatcher) (p n : Nat) (kt : Option Nat)
    (rq : Bool) (q0 pr : List Trigger) (b : List Trigger) (bs : List (List Trigger))
    (hr : cfg.restart = false) (hb : b ≠ []) (hbs : ∀ x ∈ bs, x ≠ []) :
    runOps cfg ⟨false, true, rq, some p, kt, q0, pr, n⟩
        ((b :: bs).map fun x => WOp.burst true x) =
      (⟨false, true, rq, some p, kt, q0 ++ (b :: bs).flatten, pr, n⟩,
       (b :: bs).flatMap fun x => [.sched x, .queuedRun x]) ∧
    sigtermsOf ((b :: bs).flatMap fun x => [WEffect.sched x, WEffect.queuedRun x]) = [] ∧
    killsOf ((b :: bs).flatMap fun x => [WEffect.sched x, WEffect.queuedRun x]) = [] ∧
    startsOf ((b :: bs).flatMap fun x => [WEffect.sched x, WEffect.queuedRun x]) = [] ∧
    waitForExit cfg true p ⟨false, true, rq, some p, kt, q0 ++ (b :: bs).flatten, pr, n⟩ =
      (⟨false, true, false, some n, none, [], [], n + 1⟩,
       [.sched (q0 ++ (b :: bs).flatten), .start n (q0 ++ (b :: bs).flatten)]) ∧
    startsOf [WEffect.sched (q0 ++ (b :: bs).flatten),
        WEffect.start n (q0 ++ (b :: bs).flatten)] = [q0 ++ (b :: bs).flatten] := by
  have hne2 : q0 ++ (b :: bs).flatten ≠ [] := by
    rw [List.flatten_cons, ← List.append_assoc]
    exact List.append_ne_nil_of_left_ne_nil (List.append_ne_nil_of_right_ne_nil _ hb) _
  refine ⟨?_, sigtermsOf_queueRun _, killsOf_queueRun _, startsOf_queueRun _, ?_, ?_⟩
  · rw [runOps_queue_all cfg hr (b :: bs) _ rfl rfl (by
      intro x hx
      rcases List.mem_cons.mp hx with rfl | hx
      · exact hb
      · exact hbs x hx)]
  · rw [waitForExit_norestart_nonempty true hr rfl hne2]
    rw [scheduleTriggers_idle_norestart true hr rfl rfl hne2]
    simp
  · simp [startsOf]

/-- Witness for C4 at a concrete one-trigger burst. -/
theorem C4_norestart_queue_witness :
    runOps ⟨[], [], ["change"], false, false⟩ ⟨false, true, false, some 3, none, [], [], 5⟩
        (([[⟨"change", "a"⟩]]).map fun x => WOp.burst true x) =
      (⟨false, true, false, some 3, none, [⟨"change", "a"⟩], [], 5⟩,
       [.sched [⟨"change", "a"⟩], .queuedRun [⟨"change", "a"⟩]]) :=
  (C4_norestart_queue ⟨[], [], ["change"], false, false⟩ 3 5 none false [] [] [⟨"change", "a"⟩]
      [] rfl (by decide) (by decide)).1

/-- C9: for a watch job in restart mode, when a run exits with the job not
closed: a non-empty restart queue is rescheduled as such; an empty restart
queue with a restart requested during the run or run-on-start set
reschedules the single synthetic restart trigger; otherwise nothing is
rescheduled and no new run starts — and on a successful spawn the started
run carries exactly the rescheduled triggers. -/
theorem C9_restart_reschedule (cfg : NormalizedWatcher) (ok : Bool) (p : Nat) (s : WatchState)
    (hr : cfg.restart = true) (hc : s.closed = false) :
    schedsOf (waitForExit cfg ok p s).2 =
      (if s.pendingRestart ≠ [] then [s.pendingRestart]
       else if s.restartQueued || cfg.runOnStart then [[⟨"restart", ""⟩]] else []) ∧
    (s.pendingRestart = [] → s.restartQueued = false → cfg.runOnStart = false →
      (waitForExit cfg ok p s).2 = []) ∧
    (ok = true → startsOf (waitForExit cfg ok p s).2 =
      (if s.pendingRestart ≠ [] then [s.pendingRestart]
       else if s.restartQueued || cfg.runOnStart then [[⟨"restart", ""⟩]] else [])) := by
  by_cases hpr : s.pendingRestart = []
  · by_cases hsyn : s.restartQueued = true ∨ cfg.runOnStart = true
    · rw [waitForExit_restart_synthetic ok hr hc hpr hsyn]
      rw [scheduleTriggers_idle_restart ok hr (by simpa using hc) rfl (by simp)]
      have hq : (s.restartQueued || cfg.runOnStart) = true := by
        rcases hsyn with h | h <;> simp [h]
      cases ok <;> simp [schedsOf, startsOf, hpr, hq] <;>
        (intro hrq
         rcases hsyn with h | h
         · exact absurd hrq (by simp [h])
         · exact h)
    · have h1 : s.restartQueued = false := by
        cases h : s.restartQueued
        · rfl
        · exact absurd (Or.inl h) hsyn
      have h2 : cfg.runOnStart = false := by
        cases h : cfg.runOnStart
        · rfl
        · exact absurd (Or.inr h) hsyn
      rw [waitForExit_restart_none ok hr hc hpr h1 h2]
      simp [schedsOf, startsOf, hpr, h1, h2]
  · rw [waitForExit_restart_nonempty ok hr hc hpr]
    rw [scheduleTriggers_idle_restart ok hr (by simpa using hc) rfl hpr]
    cases ok <;> simp [schedsOf, startsOf, hpr]

/-- Witness for C9 at a concrete exiting run with one queued restart trigger. -/
theorem C9_restart_reschedule_witness :
    schedsOf (waitForExit ⟨[], [], [], true, false⟩ true 4
        ⟨false, false, true, some 4, none, [], [⟨"change", "x"⟩], 6⟩).2 =
      [[⟨"change", "x"⟩]] := by
  have h := (C9_restart_reschedule ⟨[], [], [], true, false⟩ true 4
    ⟨false, false, true, some 4, none, [], [⟨"change", "x"⟩], 6⟩ rfl rfl).1
  simpa using h

/-! Invariant preservation across the watch-job transitions. -/

theorem WatchState_eta_pendingRestart (s : WatchState) (h : s.pendingRestart = []) :
    { s with pendingRestart := ([] : List Trigger) } = s := by
  cases s
  simp_all

theorem WatchInv_scheduleTriggers (cfg : NormalizedWatcher) (ok : Bool) (ts : List Trigger)
    (s : WatchState) (h : WatchInv s) : WatchInv (scheduleTriggers cfg ok ts s).1 := by
  obtain ⟨h1, h2, h3⟩ := h
  cases hcl : s.closed <;> cases hre : cfg.restart <;> cases hrun : s.running <;>
    cases hrq : s.restartQueued <;> rcases hcmd : s.cmd with _ | p <;> cases ok <;>
    simp_all [WatchInv, scheduleTriggers, launchLocked, stopProcessLocked]

theorem WatchInv_waitForExit (cfg : NormalizedWatcher) (ok : Bool) (p : Nat)
    (s : WatchState) (hcmd : s.cmd = some p) (h : WatchInv s) :
    WatchInv (waitForExit cfg ok p s).1 := by
  have hinv1 : WatchInv
      { s with killTimer := none, cmd := if s.cmd = some p then none else s.cmd,
               running := false, pending := [], pendingRestart := [],
               restartQueued := false } := by
    refine ⟨?_, by simp, by simp⟩
    simp [hcmd]
  by_cases hcl : s.closed = true
  · rw [waitForExit_closed ok hcl]
    exact hinv1
  · replace hcl : s.closed = false := by simpa using hcl
    by_cases hre : cfg.restart = true
    · by_cases hpr : s.pendingRestart = []
      · by_cases hsyn : s.restartQueued = true ∨ cfg.runOnStart = true
        · rw [waitForExit_restart_synthetic ok hre hcl hpr hsyn]
          exact WatchInv_scheduleTriggers cfg ok _ _ hinv1
        · have hq1 : s.restartQueued = false := by
            cases hx : s.restartQueued
            · rfl
            · exact absurd (Or.inl hx) hsyn
          have hq2 : cfg.runOnStart = false := by
            cases hx : cfg.runOnStart
            · rfl
            · exact absurd (Or.inr hx) hsyn
          rw [waitForExit_restart_none ok hre hcl hpr hq1 hq2]
          exact hinv1
      · rw [waitForExit_restart_nonempty ok hre hcl hpr]
        exact WatchInv_scheduleTriggers cfg ok _ _ hinv1
    · replace hre : cfg.restart = false := by simpa using hre
      by_cases hp : s.pending = []
      · rw [waitForExit_norestart_empty ok hre hcl hp]
        exact hinv1
      · rw [waitForExit_norestart_nonempty ok hre hcl hp]
        exact WatchInv_scheduleTriggers cfg ok _ _ hinv1

theorem WatchInv_applyOp (cfg : NormalizedWatcher) (op : WOp) (s : WatchState)
    (h : WatchInv s) : WatchInv (applyOp cfg s op).1 := by
  cases op with
  | burst ok ts => exact WatchInv_scheduleTriggers cfg ok ts s h
  | procExit ok =>
    rcases hcmd : s.cmd with _ | p
    · simpa [applyOp, hcmd] using h
    · have : applyOp cfg s (WOp.procExit ok) = waitForExit cfg ok p s := by
        simp [applyOp, hcmd]
      rw [this]
      exact WatchInv_waitForExit cfg ok p s hcmd h
  | close =>
    obtain ⟨h1, h2, h3⟩ := h
    by_cases hcl : s.closed = true
    · simpa [applyOp, closeWatch, hcl] using ⟨h1, h2, h3⟩
    · rcases hcmd : s.cmd with _ | p <;>
        simp_all [applyOp, closeWatch, stopProcessLocked, WatchInv]
  | killFire c =>
    rcases hcmd : s.cmd with _ | p
    · simpa [applyOp, killTimerFire, hcmd] using h
    · by_cases hpc : p = c <;> simp_all [applyOp, killTimerFire, WatchInv]

theorem WatchInv_runOps (cfg : NormalizedWatcher) (ops : List WOp) :
    ∀ s : WatchState, WatchInv s → WatchInv (runOps cfg s ops).1 := by
  induction ops with
  | nil => intro s h; exact h
  | cons op ops ih =>
    intro s h
    rw [runOps_cons]
    exact ih _ (WatchInv_applyOp cfg op s h)

theorem WatchInv_initWatch : WatchInv initWatch := by
  refine ⟨rfl, fun _ => ⟨rfl, rfl⟩, fun h => ?_⟩
  cases h

/-- C8: in every reachable watch-job state no queued triggers exist while the
job is idle — hence none can exist at the moment any launch is attempted —
and a spawn failure at an idle, non-closed job is logged and leaves the
job state completely unchanged, so the restart/queue logic proceeds
unchanged and, there being no queued triggers, the failure leads to no
further action. -/
theorem C8_spawn_failure (cfg : NormalizedWatcher) (ops : List WOp) :
    ((runOps cfg initWatch ops).1.running = false →
      (runOps cfg initWatch ops).1.pending = [] ∧
      (runOps cfg initWatch ops).1.pendingRestart = []) ∧
    (∀ ts : List Trigger, ts ≠ [] →
      (runOps cfg initWatch ops).1.running = false →
      (runOps cfg initWatch ops).1.closed = false →
      scheduleTriggers cfg false ts (runOps cfg initWatch ops).1 =
        ((runOps cfg initWatch ops).1,
         [.sched ts, .startFailed ts])) := by
  obtain ⟨h1, h2, h3⟩ := WatchInv_runOps cfg ops initWatch WatchInv_initWatch
  refine ⟨h2, ?_⟩
  intro ts hts hrun hcl
  obtain ⟨hp, hpr⟩ := h2 hrun
  by_cases hre : cfg.restart = true
  · rw [scheduleTriggers_idle_restart false hre hcl hrun hts]
    rw [if_neg (by simp)]
    rw [WatchState_eta_pendingRestart _ hpr, hpr]
    simp
  · rw [scheduleTriggers_idle_norestart false (by simpa using hre) hcl hrun hts]
    rw [if_neg (by simp)]

/-- Witness for C8: a failed spawn on a freshly constructed idle watcher. -/
theorem C8_spawn_failure_witness :
    scheduleTriggers ⟨[], [], ["change"], false, false⟩ false [⟨"change", "a"⟩]
        (runOps ⟨[], [], ["change"], false, false⟩ initWatch []).1 =
      ((runOps ⟨[], [], ["change"], false, false⟩ initWatch []).1,
       [.sched [⟨"change", "a"⟩], .startFailed [⟨"change", "a"⟩]]) :=
  (C8_spawn_failure ⟨[], [], ["change"], false, false⟩ []).2 _ (by decide) rfl rfl

/-- C6: for both watch and server jobs, the forced-kill timer callback
re-validates under the job lock that the stored process handle is still
the one captured when the timer was armed: if the handle was cleared or
replaced it does nothing, and whenever it kills, the stored handle equals
the captured one. -/
theorem C6_kill_timer_guard :
    (∀ (s : WatchState) (c : Nat), s.cmd ≠ some c → killTimerFire c s = (s, [])) ∧
    (∀ (s : WatchState) (c : Nat), killsOf (killTimerFire c s).2 ≠ [] → s.cmd = some c) ∧
    (∀ (t : ServerState) (c : Nat), t.cmd ≠ some c → serverKillTimerFire c t = (t, [])) ∧
    (∀ (t : ServerState) (c : Nat), killsOf (serverKillTimerFire c t).2 ≠ [] →
      t.cmd = some c) := by
  refine ⟨?_, ?_, ?_, ?_⟩
  · intro s c h
    rcases hc : s.cmd with _ | p
    · simp [killTimerFire, hc]
    · have hpc : ¬ p = c := fun hx => h (by rw [hc, hx])
      simp [killTimerFire, hc, hpc]
  · intro s c h
    rcases hc : s.cmd with _ | p
    · simp [killTimerFire, hc, killsOf] at h
    · by_cases hpc : p = c
      · rw [hpc]
      · simp [killTimerFire, hc, hpc, killsOf] at h
  · intro t c h
    rcases hc : t.cmd with _ | p
    · simp [serverKillTimerFire, hc]
    · have hpc : ¬ p = c := fun hx => h (by rw [hc, hx])
      simp [serverKillTimerFire, hc, hpc]
  · intro t c h
    rcases hc : t.cmd with _ | p
    · simp [serverKillTimerFire, hc, killsOf] at h
    · by_cases hpc : p = c
      · rw [hpc]
      · simp [serverKillTimerFire, hc, hpc, killsOf] at h

/-- Witness for C6: a timer armed for process 5 fires after the handle was
cleared, and after it was replaced by process 6, doing nothing both times. -/
theorem C6_kill_timer_guard_witness :
    killTimerFire 5 ⟨false, false, false, none, none, [], [], 1⟩ =
      (⟨false, false, false, none, none, [], [], 1⟩, []) ∧
    serverKillTimerFire 5 ⟨false, some 6, false, none⟩ = (⟨false, some 6, false, none⟩, []) :=
  ⟨C6_kill_timer_guard.1 ⟨false, false, false, none, none, [], [], 1⟩ 5 (by decide),
   C6_kill_timer_guard.2.2.1 ⟨false, some 6, false, none⟩ 5 (by decide)⟩

theorem applyOp_closed (cfg : NormalizedWatcher) (op : WOp) (s : WatchState)
    (h : s.closed = true) :
    (applyOp cfg s op).1.closed = true ∧ startsOf (applyOp cfg s op).2 = [] ∧
    (s.cmd = none → (applyOp cfg s op).1.cmd = none) := by
  cases op with
  | burst ok ts => simp [applyOp, scheduleTriggers, h, startsOf]
  | procExit ok =>
    rcases hc : s.cmd with _ | p
    · simp [applyOp, hc, h, startsOf]
    · rw [show applyOp cfg s (WOp.procExit ok) = waitForExit cfg ok p s by simp [applyOp, hc]]
      rw [waitForExit_closed ok h]
      simp [startsOf, h, hc]
  | close => simp [applyOp, closeWatch, h, startsOf]
  | killFire c =>
    rcases hc : s.cmd with _ | p
    · simp [applyOp, killTimerFire, hc, h, startsOf]
    · by_cases hpc : p = c <;> simp [applyOp, killTimerFire, hc, h, hpc, startsOf]

theorem runOps_closed (cfg : NormalizedWatcher) (ops : List WOp) :
    ∀ s : WatchState, s.closed = true →
      (runOps cfg s ops).1.closed = true ∧ startsOf (runOps cfg s ops).2 = [] ∧
      (s.cmd = none → (runOps cfg s ops).1.cmd = none) := by
  induction ops with
  | nil => intro s h; exact ⟨h, rfl, fun hc => hc⟩
  | cons op ops ih =>
    intro s h
    rw [runOps_cons]
    obtain ⟨ha, hb, hcmd⟩ := applyOp_closed cfg op s h
    obtain ⟨ia, ib, icmd⟩ := ih (applyOp cfg s op).1 ha
    refine ⟨ia, ?_, fun hn => icmd (hcmd hn)⟩
    rw [startsOf_append, hb, ib]
    rfl

/-- C7 counterexample: Close on a watch job with a running process returns
after signalling it, with the process handle still recorded and nothing
waiting for the process itself to exit (the watch run loop exits on the
stop signal without waiting for the process), so the "process confirmed
terminated and no live process handle remaining" half of the claim fails
for watch jobs. -/
theorem C7_counterexample :
    (closeWatch ⟨false, true, false, some 7, none, [], [], 9⟩).1.cmd = some 7 ∧
    (closeWatch ⟨false, true, false, some 7, none, [], [], 9⟩).1.closed = true ∧
    (closeWatch ⟨false, true, false, some 7, none, [], [], 9⟩).2 = [.sigterm 7] := by
  refine ⟨rfl, rfl, rfl⟩

/-- C7 amended: Close is idempotent — a second call finds the closed flag
set, changes nothing and emits nothing; the first call sets the flag,
discards both queues and the restart request, and sends the
graceful-termination signal to the live process if there is one; the
closed flag, once set, is never cleared by any later transition; from a
closed state no transition ever starts a process and a cleared handle
stays cleared; and a closed server job performs no further launches and
its run loop ends. -/
theorem C7_close_idempotent :
    (∀ s : WatchState, s.closed = true → closeWatch s = (s, [])) ∧
    (∀ s : WatchState, s.closed = false →
      (closeWatch s).1.closed = true ∧ (closeWatch s).1.pending = [] ∧
      (closeWatch s).1.pendingRestart = [] ∧ (closeWatch s).1.restartQueued = false ∧
      (s.cmd = none → (closeWatch s).2 = []) ∧
      (∀ p, s.cmd = some p → (closeWatch s).2 = [WEffect.sigterm p])) ∧
    (∀ (cfg : NormalizedWatcher) (ops : List WOp) (s : WatchState), s.closed = true →
      (runOps cfg s ops).1.closed = true ∧ startsOf (runOps cfg s ops).2 = [] ∧
      (s.cmd = none → (runOps cfg s ops).1.cmd = none)) ∧
    (∀ t : ServerState, t.closed = true → serverClose t = (t, [])) ∧
    (∀ t : ServerState, (serverClose t).1.closed = true) ∧
    (∀ t : ServerState, t.closed = false → ∀ p, t.cmd = some p →
      (serverClose t).2 = [WEffect.sigterm p]) ∧
    (∀ t : ServerState, (serverClearProcess t).closed = t.closed ∧
      (serverStopProcessLocked t).1.closed = t.closed ∧
      (∀ c, (serverKillTimerFire c t).1.closed = t.closed) ∧
      (∀ p b, (serverSetProcess p b t).closed = t.closed)) ∧
    (∀ (r : Bool) (env : ServerIterEnv) (rest : List ServerIterEnv),
      env.closedAtLaunch = true → env.closedAtExit = true →
      serverRunLaunches r (env :: rest) = 0) := by
  refine ⟨?_, ?_, fun cfg ops s h => runOps_closed cfg ops s h, ?_, ?_, ?_, ?_, ?_⟩
  · intro s h
    simp [closeWatch, h]
  · intro s h
    rcases hc : s.cmd with _ | p <;>
      simp [closeWatch, stopProcessLocked, h, hc]
  · intro t h
    simp [serverClose, h]
  · intro t
    by_cases h : t.closed = true
    · simp [serverClose, h]
    · rcases hc : t.cmd with _ | p <;>
        simp [serverClose, serverStopProcessLocked, h, hc]
  · intro t h p hc
    simp [serverClose, serverStopProcessLocked, h, hc]
  · intro t
    refine ⟨rfl, ?_, ?_, fun p b => rfl⟩
    · rcases hc : t.cmd with _ | p <;> simp [serverStopProcessLocked, hc]
    · intro c
      rcases hc : t.cmd with _ | p
      · simp [serverKillTimerFire, hc]
      · by_cases hpc : p = c <;> simp [serverKillTimerFire, hc, hpc]
  · intro r env rest h1 h2
    simp [serverRunLaunches, h1, h2]

/-- Witness for the amended C7 at concrete closed jobs. -/
theorem C7_close_idempotent_witness :
    closeWatch ⟨true, false, false, none, none, [], [], 1⟩ =
      (⟨true, false, false, none, none, [], [], 1⟩, []) ∧
    serverClose ⟨true, none, false, none⟩ = (⟨true, none, false, none⟩, []) ∧
    serverRunLaunches true [⟨true, true, false, false⟩] = 0 :=
  ⟨C7_close_idempotent.1 ⟨true, false, false, none, none, [], [], 1⟩ rfl,
   C7_close_idempotent.2.2.2.1 ⟨true, none, false, none⟩ rfl,
   C7_close_idempotent.2.2.2.2.2.2.2 true ⟨true, true, false, false⟩ [] rfl rfl⟩

/-- C5: for a server job with restart configured, after the supervised
process exits the loop performs exactly one relaunch, and only after the
restart timer — armed with the configured delay whenever that delay is
positive, and with the default otherwise — has fired with the stop signal
never having arrived; if Close is called before the exit, or the stop
signal arrives before the timer fires, or the job is found closed when
the timer fires, no relaunch ever occurs and the run loop ends. -/
theorem C5_server_restart_delay :
    (∀ env env2 : ServerIterEnv,
      env.closedAtLaunch = false → env.closedAtExit = false →
      env.stopBeforeTimer = false → env.closedAtTimer = false →
      env2.closedAtLaunch = false → env2.closedAtExit = true →
      serverRunLaunches true [env, env2] = 2) ∧
    (∀ (env : ServerIterEnv) (rest : List ServerIterEnv),
      env.closedAtExit = false → env.stopBeforeTimer = false → env.closedAtTimer = false →
      serverRunLaunches true (env :: rest) =
        (if env.closedAtLaunch then 0 else 1) + serverRunLaunches true rest) ∧
    (∀ (env : ServerIterEnv) (rest : List ServerIterEnv), env.closedAtExit = true →
      serverRunLaunches true (env :: rest) = if env.closedAtLaunch then 0 else 1) ∧
    (∀ (env : ServerIterEnv) (rest : List ServerIterEnv), env.stopBeforeTimer = true →
      serverRunLaunches true (env :: rest) = if env.closedAtLaunch then 0 else 1) ∧
    (∀ (env : ServerIterEnv) (rest : List ServerIterEnv), env.closedAtTimer = true →
      serverRunLaunches true (env :: rest) = if env.closedAtLaunch then 0 else 1) ∧
    (∀ env : ServerIterEnv, serverWaitForRestart env = true →
      env.stopBeforeTimer = false ∧ env.closedAtTimer = false) ∧
    (∀ d : Int, 0 < d → effectiveRestartDelay d = d) ∧
    (∀ d : Int, d ≤ 0 → effectiveRestartDelay d = defaultRestartDelayMs) := by
  refine ⟨?_, ?_, ?_, ?_, ?_, ?_, ?_, ?_⟩
  · intro env env2 h1 h2 h3 h4 h5 h6
    simp [serverRunLaunches, serverWaitForRestart, h1, h2, h3, h4, h5, h6]
  · intro env rest h1 h2 h3
    simp [serverRunLaunches, serverWaitForRestart, h1, h2, h3]
  · intro env rest h1
    simp [serverRunLaunches, h1]
  · intro env rest h1
    by_cases h2 : env.closedAtExit = true
    · simp [serverRunLaunches, h1, h2]
    · simp [serverRunLaunches, serverWaitForRestart, h1,
        show env.closedAtExit = false by simpa using h2]
  · intro env rest h1
    by_cases h2 : env.closedAtExit = true
    · simp [serverRunLaunches, h1, h2]
    · by_cases h3 : env.stopBeforeTimer = true
      · simp [serverRunLaunches, serverWaitForRestart, h1, h3,
          show env.closedAtExit = false by simpa using h2]
      · simp [serverRunLaunches, serverWaitForRestart, h1,
          show env.closedAtExit = false by simpa using h2,
          show env.stopBeforeTimer = false by simpa using h3]
  · intro env h
    unfold serverWaitForRestart at h
    by_cases h1 : env.stopBeforeTimer = true
    · rw [if_pos h1] at h
      cases h
    · rw [if_neg h1] at h
      refine ⟨by simpa using h1, ?_⟩
      cases h2 : env.closedAtTimer
      · rfl
      · rw [h2] at h
        cases h
  · intro d hd
    unfold effectiveRestartDelay
    rw [if_neg (by omega)]
  · intro d hd
    unfold effectiveRestartDelay
    rw [if_pos hd]

/-- Witness for C5: one clean exit followed by exactly one relaunch, and the
armed delay equals the configured 100 milliseconds. -/
theorem C5_server_restart_delay_witness :
    serverRunLaunches true [⟨false, false, false, false⟩, ⟨false, true, false, false⟩] = 2 ∧
    effectiveRestartDelay 100 = 100 :=
  ⟨C5_server_restart_delay.1 ⟨false, false, false, false⟩ ⟨false, true, false, false⟩
      rfl rfl rfl rfl rfl rfl,
   C5_server_restart_delay.2.2.2.2.2.2.1 100 (by norm_num)⟩
